import Mathlib

/-!
Verification of the core pipeline of `pycli.py`: streaming completion
retrieval with retry (`call_ollama_api_stream`), extraction of a filename
directive and the first fenced code block (`extract_code_block`), artifact
persistence with auto-naming, and the confirm/execute/debug loop
(`handle_response`).  Text is modelled as `List Char`; the filesystem as the
list of existing paths; user input, the inference endpoint, the subprocess
boundary and disk faults as explicit oracles.
-/

namespace PyCLI

abbrev Str := List Char

/-- The backtick character, first character of a fence marker. -/
def bq : Char := '\x60'

/-- A triple-backtick fence marker. -/
def fenceMark : Str := [bq, bq, bq]

/-- Python `str.strip()` whitespace test, restricted to the ASCII whitespace
characters Python strips. -/
def pyIsSpace (c : Char) : Bool :=
  c = ' ' || c = '\t' || c = '\n' || c = '\r' || c = '\x0b' || c = '\x0c'

/-- Python `str.strip()`: drop leading and trailing whitespace. -/
def pyStrip (s : Str) : Str :=
  ((s.dropWhile pyIsSpace).reverse.dropWhile pyIsSpace).reverse

/-- Python `str.lower()` on the ASCII text this program manipulates. -/
def pyLower (s : Str) : Str := s.map Char.toLower

/-- Index of the leftmost occurrence of `pat` in `s`, as found by
`re.search` for a literal pattern: `some i` when `pat` is a prefix of
`s.drop i` and of no earlier suffix. -/
def findOcc (pat : Str) : Str → Option Nat
  | [] => if pat.isPrefixOf ([] : Str) then some 0 else none
  | c :: rest =>
    if pat.isPrefixOf (c :: rest) then some 0
    else (findOcc pat rest).map (· + 1)

/-- The literal marker searched by `re.search(r"filename: (.*?)\n", text)`. -/
def fnMarker : Str := "filename: ".toList

/-- The filename component of `extract_code_block`: the regex
`filename: (.*?)\n` (no DOTALL) captures, at the first occurrence of the
marker, the rest of that line up to the first newline; the newline is
required, and the captured value is stripped.  `none` when the pattern has
no match. -/
def extractFilename (t : Str) : Option Str :=
  match findOcc fnMarker t with
  | none => none
  | some i =>
    let after := t.drop (i + fnMarker.length)
    match findOcc ['\n'] after with
    | none => none
    | some j => some (pyStrip (after.take j))

/-- The fenced-block component of `extract_code_block`: the regex
``(triple-backtick)(.*?)\n(.*?)(triple-backtick)`` with DOTALL matches at the
first fence; group 1 is the text up to the first newline after the fence,
group 2 the text up to the first closing fence after that newline.  The
language tag is stripped, lower-cased and defaulted to `python` when empty;
the code body is stripped. -/
def extractCodeLang (t : Str) : Option (Str × Str) :=
  match findOcc fenceMark t with
  | none => none
  | some i =>
    let afterFence := t.drop (i + 3)
    match findOcc ['\n'] afterFence with
    | none => none
    | some j =>
      let langRaw := afterFence.take j
      let afterNl := afterFence.drop (j + 1)
      match findOcc fenceMark afterNl with
      | none => none
      | some k =>
        let lang0 := pyLower (pyStrip langRaw)
        let lang := if lang0 = [] then "python".toList else lang0
        some (lang, pyStrip (afterNl.take k))

/-- `extract_code_block(response_text)`: returns
`(filename, language, code)`, each optional, exactly as the Python function
does (filename extracted independently of the fenced block). -/
def extract_code_block (t : Str) : Option Str × Option Str × Option Str :=
  match extractCodeLang t with
  | none => (extractFilename t, none, none)
  | some (lang, code) => (extractFilename t, some lang, some code)

/-! ## CompletionClient: `call_ollama_api_stream`

One attempt of the `for attempt in range(max_retries)` loop either raises a
`requests.exceptions.RequestException` somewhere inside the `with` block
(modelled `transportFail`) or delivers the whole body as a list of
`iter_lines` chunks.  A chunk is empty (skipped by `if chunk:`), a valid
JSON object whose `message.content` is some delta text (missing fields give
`""`), or malformed — `json.loads` then raises `json.JSONDecodeError`,
which the `except requests.exceptions.RequestException` clause does not
catch. -/

/-- One line of the streamed response body. -/
inductive Chunk where
  | empty : Chunk
  | valid (content : Str) : Chunk
  | malformed : Chunk
deriving DecidableEq

/-- Outcome of one HTTP attempt at the transport level. -/
inductive AttemptRes where
  | transportFail : AttemptRes
  | stream (chunks : List Chunk) : AttemptRes

/-- The error that escapes `call_ollama_api_stream` uncaught. -/
inductive StreamErr where
  | jsonDecodeError : StreamErr
deriving DecidableEq

/-- Folds the chunk loop: empty chunks are skipped, valid deltas are
accumulated in order, a malformed chunk raises uncaught. -/
def processChunks : List Chunk → Except StreamErr Str
  | [] => .ok []
  | .empty :: r => processChunks r
  | .malformed :: _ => .error .jsonDecodeError
  | .valid c :: r => (processChunks r).map (c ++ ·)

/-- The retry loop of `call_ollama_api_stream`, from attempt index `i` with
`fuel` iterations left.  Returns the Python result (`.ok (some s)` a reply,
`.ok none` the `None` failure signal, `.error` an uncaught exception)
together with the number of attempts performed. -/
def callAux (transport : Nat → AttemptRes) (i : Nat) :
    Nat → Except StreamErr (Option Str) × Nat
  | 0 => (.ok none, i)
  | fuel + 1 =>
    match transport i with
    | .stream chunks =>
      match processChunks chunks with
      | .ok s => (.ok (some s), i + 1)
      | .error e => (.error e, i + 1)
    | .transportFail =>
      if fuel = 0 then (.ok none, i + 1)
      else callAux transport (i + 1) fuel

/-- `call_ollama_api_stream(messages, model, max_retries)` against a given
transport: the message payload is fixed per call, so the transport oracle is
indexed only by attempt number. -/
def call_ollama_api_stream (transport : Nat → AttemptRes) (max_retries : Nat := 3) :
    Except StreamErr (Option Str) × Nat :=
  callAux transport 0 max_retries

/-! ## Data model of the orchestrator -/

/-- Chat message roles. -/
inductive Role where
  | system : Role
  | user : Role
  | assistant : Role
deriving DecidableEq

/-- A chat message (image attachments are out of the core's scope). -/
structure Msg where
  role : Role
  content : Str
deriving DecidableEq

/-- Errors of the filesystem boundary: `os.makedirs("")` raises
`FileNotFoundError`; any other injected fault is an `OSError`. -/
inductive IOErr where
  | fileNotFound : IOErr
  | osError : IOErr
deriving DecidableEq

/-- Fault-injection oracle for the disk: `none` means the operation
succeeds, `some e` that it raises `e`. -/
structure DiskOracle where
  mkdirFail : Option IOErr
  writeFail : Option IOErr

/-- The honest disk: no injected faults. -/
def honestDisk : DiskOracle := ⟨none, none⟩

/-- Result of `subprocess.run(cmd, shell=True, check=True, ...)`:
either a zero exit status with captured stdout, or a
`CalledProcessError` carrying the captured stderr. -/
inductive ExecRes where
  | success (stdout : Str) : ExecRes
  | failure (stderr : Str) : ExecRes

/-- Environment of `handle_response`: the summarized completion client
(`none` = returned `None` after exhausting retries), the subprocess
boundary, and the disk. -/
structure HEnv where
  ai : Nat → Option Str
  exec : Nat → ExecRes
  disk : DiskOracle

/-- Observable state threaded through `handle_response`: the main
conversation `messages`, the set of paths existing on disk, the global
`file_counter`, and logs of the completion requests issued and the shell
commands executed. -/
structure HState where
  messages : List Msg
  fs : List Str
  counter : Nat
  writes : List (Str × Str)
  aiCalls : List (List Msg)
  execCalls : List Str
deriving DecidableEq

/-- How `handle_response` returned (when it did not raise). -/
inductive Status where
  | noCode : Status
  | declinedRun : Status
  | noRunResponse : Status
  | noRunCmd : Status
  | abortedExec : Status
  | execSuccess (stdout : Str) : Status
  | abortedDebug : Status
  | noFix : Status
deriving DecidableEq

/-! ## ArtifactStore -/

/-- `posixpath.dirname`: everything up to the last slash, with trailing
slashes stripped unless the head is all slashes; `""` when there is no
directory component. -/
def dirname (p : Str) : Str :=
  let i := (p.length - (p.reverse.takeWhile (fun c => c ≠ '/')).length)
  let head := p.take i
  if head = [] then []
  else if head.all (fun c => c = '/') then head
  else (head.reverse.dropWhile (fun c => c = '/')).reverse

/-- `os.makedirs(d, exist_ok=True)`: raises `FileNotFoundError` on the
empty path, otherwise succeeds (or raises an injected fault) and records
the directory as existing. -/
def makedirs (disk : DiskOracle) (fs : List Str) (d : Str) : Except IOErr (List Str) :=
  if d = [] then .error .fileNotFound
  else
    match disk.mkdirFail with
    | some e => .error e
    | none => .ok (if fs.contains d then fs else d :: fs)

/-- `open(filename, "w").write(code)`: overwrites the chosen path (or
raises an injected fault) and records it as existing. -/
def writeFile (disk : DiskOracle) (fs : List Str) (filename : Str) : Except IOErr (List Str) :=
  match disk.writeFail with
  | some e => .error e
  | none => .ok (if fs.contains filename then fs else filename :: fs)

/-- The auto-generated candidate name for counter value `c`:
`f"generated_py_script_{file_counter}.py"`. -/
def autoName (c : Nat) : Str :=
  "generated_py_script_".toList ++ (Nat.repr c).toList ++ ".py".toList

/-- The `while True` naming loop: advance the counter past names existing
on disk, returning the chosen name and final counter.  `fuel` bounds the
search; every use supplies more fuel than there are paths on disk. -/
def autoLoop (fs : List Str) (c : Nat) : Nat → Str × Nat
  | 0 => (autoName c, c)
  | fuel + 1 => if fs.contains (autoName c) then autoLoop fs (c + 1) fuel else (autoName c, c)

/-! ## ExecutionOrchestrator -/

/-- A confirmation answer accepted by the gates:
`input(...).strip().lower() == 'y'`. -/
def isYes (s : Str) : Bool := pyLower (pyStrip s) = ['y']

/-- The synthetic correction request sent on an accepted debug round:
`f"Command failed: {e.stderr}\nProvide corrected command."`. -/
def correctionMsg (stderr : Str) : Msg :=
  ⟨.user, "Command failed: ".toList ++ stderr ++ "\nProvide corrected command.".toList⟩

/-- The fresh, narrow conversation used to obtain a run command. -/
def runCommandMsgs (filename language : Str) : List Msg :=
  [⟨.system, ("Provide a shell command to run the given file, " ++
      "preferring Python execution (e.g., python3 file.py).").toList⟩,
   ⟨.user, "Command to run '".toList ++ filename ++ "' in ".toList ++ language ++ "?".toList⟩]

/-- Issue one completion request, recording it in the call log.  The reply
is `env.ai` applied to the index of the call within the process. -/
def callAI (env : HEnv) (st : HState) (req : List Msg) : Option Str × HState :=
  (env.ai st.aiCalls.length, { st with aiCalls := st.aiCalls ++ [req] })

/-- Execute one shell command, recording it in the execution log. -/
def callExec (env : HEnv) (st : HState) (cmd : Str) : ExecRes × HState :=
  (env.exec st.execCalls.length, { st with execCalls := st.execCalls ++ [cmd] })

/-- The `while True` execution/debug loop of `handle_response`, lines
204-225: confirm, execute, and on failure offer a debug round that sends
`messages + [correction]` to the model, appends only the assistant reply to
the main conversation, and re-extracts a run command.  Inputs are the
successive `input()` answers; an exhausted input list answers `""`, which
every gate treats as a decline. -/
def execLoop (env : HEnv) : HState → Str → List Str → HState × Status
  | st, _, [] => (st, .abortedExec)
  | st, cmd, inp :: rest =>
    if isYes inp then
      match callExec env st cmd with
      | (.success out, st1) => (st1, .execSuccess out)
      | (.failure stderr, st1) =>
        match rest with
        | [] => (st1, .abortedDebug)
        | dinp :: rest2 =>
          if isYes dinp then
            match callAI env st1 (st1.messages ++ [correctionMsg stderr]) with
            | (none, st2) => execLoop env st2 cmd rest2
            | (some resp, st2) =>
              if resp = [] then execLoop env st2 cmd rest2
              else
                let st3 := { st2 with messages := st2.messages ++ [⟨.assistant, resp⟩] }
                match (extract_code_block resp).2.2 with
                | none => (st3, .noFix)
                | some newCmd =>
                  if newCmd = [] then (st3, .noFix)
                  else execLoop env st3 newCmd rest2
          else (st1, .abortedDebug)
    else (st, .abortedExec)

/-- Lines 161-181 of `handle_response`: extraction, filename choice and the save
step.  `.ok none` is the early `return` on a falsy code body; `.ok (some ...)`
carries the updated state, the chosen filename and the language; `.error` an
uncaught exception from `os.makedirs` or the file write. -/
def saveArtifact (env : HEnv) (st0 : HState) (resp : Str) :
    Except IOErr (Option (HState × Str × Str)) :=
  match extract_code_block resp with
  | (fn?, lang?, code?) =>
    match code? with
    | none => .ok none
    | some code =>
      if code = [] then .ok none
      else
        match (match fn? with
               | some f => if f = [] then autoLoop st0.fs st0.counter (st0.fs.length + 1)
                           else (f, st0.counter)
               | none => autoLoop st0.fs st0.counter (st0.fs.length + 1)) with
        | (filename, counter1) =>
          match makedirs env.disk st0.fs (dirname filename) with
          | .error e => .error e
          | .ok fs1 =>
            match writeFile env.disk fs1 filename with
            | .error e => .error e
            | .ok fs2 =>
              .ok (some ({ st0 with
                  counter := counter1,
                  fs := fs2,
                  writes := st0.writes ++ [(filename, code)] },
                filename, lang?.getD "python".toList))

/-- `handle_response(ai_response, messages, model)`, driven by the oracles
in `env` and the queued `input()` answers.  An uncaught exception from the
save step is the `.error` case. -/
def handle_response (env : HEnv) (st0 : HState) (resp : Str) (inputs : List Str) :
    Except IOErr (HState × Status) :=
  match saveArtifact env st0 resp with
  | .error e => .error e
  | .ok none => .ok (st0, .noCode)
  | .ok (some (st, filename, language)) =>
    match inputs with
    | [] => .ok (st, .declinedRun)
    | rinp :: rest =>
      if isYes rinp then
        match callAI env st (runCommandMsgs filename language) with
        | (none, st1) => .ok (st1, .noRunResponse)
        | (some rcResp, st1) =>
          if rcResp = [] then .ok (st1, .noRunResponse)
          else
            match (extract_code_block rcResp).2.2 with
            | none => .ok (st1, .noRunCmd)
            | some cmd =>
              if cmd = [] then .ok (st1, .noRunCmd)
              else .ok (execLoop env st1 cmd rest)
      else .ok (st, .declinedRun)

/-! ## Lemmas about leftmost-occurrence search -/

theorem isPrefixOf_append_self (p s : Str) : p.isPrefixOf (p ++ s) = true := by
  simp [List.isPrefixOf_iff_prefix]

theorem findOcc_self_append (pat s : Str) : findOcc pat (pat ++ s) = some 0 := by
  cases pat with
  | nil =>
    cases s with
    | nil => simp [findOcc]
    | cons c r => simp [findOcc]
  | cons a p =>
    have h : (a :: p).isPrefixOf ((a :: p) ++ s) = true := isPrefixOf_append_self _ _
    simp only [List.cons_append] at h
    simp [findOcc, h]

theorem findOcc_append_left (c : Char) (pat p s : Str) (h : c ∉ p) :
    findOcc (c :: pat) (p ++ s) = (findOcc (c :: pat) s).map (· + p.length) := by
  induction p with
  | nil =>
    simp only [List.nil_append, List.length_nil]
    cases findOcc (c :: pat) s <;> simp
  | cons a q ih =>
    have ha : a ≠ c := fun hac => h (by simp [hac])
    have hq : c ∉ q := fun hc => h (List.mem_cons_of_mem _ hc)
    have hcond : ¬(c = a ∧ pat <+: q ++ s) := fun hx => ha hx.1.symm
    have hstep : findOcc (c :: pat) ((a :: q) ++ s) =
        (findOcc (c :: pat) (q ++ s)).map (· + 1) := by
      simp [findOcc, hcond]
    rw [hstep, ih hq, Option.map_map]
    cases findOcc (c :: pat) s <;> simp [Nat.add_assoc]

theorem findOcc_none_of_head_not_mem (c : Char) (pat p : Str) (h : c ∉ p) :
    findOcc (c :: pat) p = none := by
  have := findOcc_append_left c pat p [] h
  simpa using this

theorem extractFilename_structured (p v rest : Str) (hp : 'f' ∉ p) (hv : '\n' ∉ v) :
    extractFilename (p ++ fnMarker ++ v ++ '\n' :: rest) = some (pyStrip v) := by
  have hassoc : p ++ fnMarker ++ v ++ '\n' :: rest
      = p ++ (fnMarker ++ (v ++ '\n' :: rest)) := by
    simp [List.append_assoc]
  have h1 : findOcc fnMarker (p ++ (fnMarker ++ (v ++ '\n' :: rest))) = some p.length := by
    have h2 := findOcc_append_left 'f' "ilename: ".toList p
      (fnMarker ++ (v ++ '\n' :: rest)) hp
    have h3 : findOcc fnMarker (fnMarker ++ (v ++ '\n' :: rest)) = some 0 :=
      findOcc_self_append _ _
    rw [show ('f' :: "ilename: ".toList) = fnMarker from rfl] at h2
    rw [h2, h3]
    simp
  have hdrop : (p ++ (fnMarker ++ (v ++ '\n' :: rest))).drop (p.length + fnMarker.length)
      = v ++ '\n' :: rest := by
    rw [← List.append_assoc, ← List.length_append]
    exact List.drop_left _ _
  have h4 : findOcc ['\n'] (v ++ '\n' :: rest) = some v.length := by
    have h5 := findOcc_append_left '\n' [] v ('\n' :: rest) hv
    have h6 : findOcc ['\n'] ('\n' :: rest) = some 0 := findOcc_self_append ['\n'] rest
    rw [h5, h6]; simp
  have htake : (v ++ '\n' :: rest).take v.length = v := List.take_left _ _
  rw [hassoc]
  simp only [extractFilename, h1, hdrop, h4, htake]

theorem extractFilename_no_newline (p v : Str) (hp : 'f' ∉ p) (hv : '\n' ∉ v) :
    extractFilename (p ++ fnMarker ++ v) = none := by
  have hassoc : p ++ fnMarker ++ v = p ++ (fnMarker ++ v) := by
    simp [List.append_assoc]
  have h1 : findOcc fnMarker (p ++ (fnMarker ++ v)) = some p.length := by
    have h2 := findOcc_append_left 'f' "ilename: ".toList p (fnMarker ++ v) hp
    have h3 : findOcc fnMarker (fnMarker ++ v) = some 0 := findOcc_self_append _ _
    rw [show ('f' :: "ilename: ".toList) = fnMarker from rfl] at h2
    rw [h2, h3]
    simp
  have hdrop : (p ++ (fnMarker ++ v)).drop (p.length + fnMarker.length) = v := by
    rw [← List.append_assoc, ← List.length_append]
    exact List.drop_left _ _
  have h4 : findOcc ['\n'] v = none := findOcc_none_of_head_not_mem '\n' [] v hv
  rw [hassoc]
  simp only [extractFilename, h1, hdrop, h4]

theorem extractCodeLang_structured (p lang body rest : Str)
    (hp : bq ∉ p) (hl1 : '\n' ∉ lang) (hb : bq ∉ body) :
    extractCodeLang (p ++ fenceMark ++ lang ++ '\n' :: (body ++ fenceMark ++ rest)) =
      some ((if pyLower (pyStrip lang) = [] then "python".toList else pyLower (pyStrip lang)),
        pyStrip body) := by
  have hassoc : p ++ fenceMark ++ lang ++ '\n' :: (body ++ fenceMark ++ rest)
      = p ++ (fenceMark ++ (lang ++ '\n' :: (body ++ (fenceMark ++ rest)))) := by
    simp [List.append_assoc]
  have h1 : findOcc fenceMark
      (p ++ (fenceMark ++ (lang ++ '\n' :: (body ++ (fenceMark ++ rest)))))
      = some p.length := by
    have h2 := findOcc_append_left bq [bq, bq] p
      (fenceMark ++ (lang ++ '\n' :: (body ++ (fenceMark ++ rest)))) hp
    have h3 : findOcc fenceMark
        (fenceMark ++ (lang ++ '\n' :: (body ++ (fenceMark ++ rest)))) = some 0 :=
      findOcc_self_append _ _
    rw [show (bq :: [bq, bq]) = fenceMark from rfl] at h2
    rw [h2, h3]
    simp
  have hdrop1 : (p ++ (fenceMark ++ (lang ++ '\n' :: (body ++ (fenceMark ++ rest))))).drop
      (p.length + 3) = lang ++ '\n' :: (body ++ (fenceMark ++ rest)) := by
    have : p.length + 3 = (p ++ fenceMark).length := by
      simp [List.length_append, fenceMark]
    rw [this, ← List.append_assoc]
    exact List.drop_left _ _
  have h4 : findOcc ['\n'] (lang ++ '\n' :: (body ++ (fenceMark ++ rest)))
      = some lang.length := by
    have h5 := findOcc_append_left '\n' [] lang ('\n' :: (body ++ (fenceMark ++ rest))) hl1
    have h6 : findOcc ['\n'] ('\n' :: (body ++ (fenceMark ++ rest))) = some 0 :=
      findOcc_self_append ['\n'] _
    rw [h5, h6]; simp
  have htake1 : (lang ++ '\n' :: (body ++ (fenceMark ++ rest))).take lang.length = lang :=
    List.take_left _ _
  have hdrop2 : (lang ++ '\n' :: (body ++ (fenceMark ++ rest))).drop (lang.length + 1)
      = body ++ (fenceMark ++ rest) := by
    have : lang ++ '\n' :: (body ++ (fenceMark ++ rest))
        = (lang ++ ['\n']) ++ (body ++ (fenceMark ++ rest)) := by
      simp [List.append_assoc]
    rw [this]
    have hlen : lang.length + 1 = (lang ++ ['\n']).length := by
      simp [List.length_append]
    rw [hlen]
    exact List.drop_left _ _
  have h7 : findOcc fenceMark (body ++ (fenceMark ++ rest)) = some body.length := by
    have h8 := findOcc_append_left bq [bq, bq] body (fenceMark ++ rest) hb
    have h9 : findOcc fenceMark (fenceMark ++ rest) = some 0 := findOcc_self_append _ _
    rw [show (bq :: [bq, bq]) = fenceMark from rfl] at h8
    rw [h8, h9]
    simp
  have htake2 : (body ++ (fenceMark ++ rest)).take body.length = body := List.take_left _ _
  rw [hassoc]
  simp only [extractCodeLang, h1, hdrop1, h4, htake1, hdrop2, h7, htake2]

theorem extract_code_block_fst (t : Str) : (extract_code_block t).1 = extractFilename t := by
  unfold extract_code_block
  cases h : extractCodeLang t with
  | none => simp
  | some pair => cases pair; simp

/-! ## Claims C7 and C8: the extractor -/

/-- Claim C7 (confirmed): extraction is a pure, deterministic function of the input
text — identical inputs give identical results — and when the text contains more than
one fenced block only the first fenced block's language tag and code body are
extracted: for a text built from a fence-free part, a first fenced block and an
arbitrary remainder, the language/code result is determined by the first block alone,
whatever further fenced blocks the remainder holds. -/
theorem C7_extraction_deterministic_first_block :
    (∀ t : Str, extract_code_block t = extract_code_block t) ∧
    (∀ p lang body rest : Str, bq ∉ p → '\n' ∉ lang → bq ∉ body →
      (extract_code_block (p ++ fenceMark ++ lang ++ '\n' :: (body ++ fenceMark ++ rest))).2 =
        (some (if pyLower (pyStrip lang) = [] then "python".toList else pyLower (pyStrip lang)),
          some (pyStrip body))) := by
  refine ⟨fun t => rfl, fun p lang body rest hp hl hb => ?_⟩
  have h := extractCodeLang_structured p lang body rest hp hl hb
  simp only [List.append_assoc] at h
  simp [extract_code_block, h, List.append_assoc]

/-- Witness for C7 on a concrete text with two fenced blocks: only the first
(`python`, `a = 1`) is extracted, the trailing `bash` block is ignored. -/
theorem C7_witness :
    (extract_code_block ("Two blocks:\n".toList ++ fenceMark ++ "python".toList ++
      '\n' :: ("a = 1".toList ++ fenceMark ++ "\n```bash\necho hi\n```".toList))).2 =
      (some (if pyLower (pyStrip "python".toList) = [] then "python".toList
        else pyLower (pyStrip "python".toList)), some (pyStrip "a = 1".toList)) :=
  C7_extraction_deterministic_first_block.2 "Two blocks:\n".toList "python".toList
    "a = 1".toList "\n```bash\necho hi\n```".toList (by decide) (by decide) (by decide)

/-- Claim C8 as stated is false: in the text `"filename: run.py"` the directive is the
final line with no trailing newline; the marker occurs (at index 0) yet the extracted
filename is absent, because the regex `filename: (.*?)\n` demands a trailing newline. -/
theorem C8_counterexample :
    findOcc fnMarker "filename: run.py".toList = some 0 ∧
    (extract_code_block "filename: run.py".toList).1 = none := by
  exact ⟨by decide, rfl⟩

/-- Claim C8 amended (proved): the extracted filename is the trimmed value of the
first occurrence of the `filename: ` marker that is terminated by a newline; a
directive on the final line with no trailing newline is not recognized, and the
filename is absent when the marker does not occur at all. -/
theorem C8_amended_filename_directive :
    (∀ p v rest : Str, 'f' ∉ p → '\n' ∉ v →
      (extract_code_block (p ++ fnMarker ++ v ++ '\n' :: rest)).1 = some (pyStrip v)) ∧
    (∀ p v : Str, 'f' ∉ p → '\n' ∉ v →
      (extract_code_block (p ++ fnMarker ++ v)).1 = none) ∧
    (∀ t : Str, findOcc fnMarker t = none → (extract_code_block t).1 = none) := by
  refine ⟨fun p v rest hp hv => ?_, fun p v hp hv => ?_, fun t h => ?_⟩
  · rw [extract_code_block_fst]
    exact extractFilename_structured p v rest hp hv
  · rw [extract_code_block_fst]
    exact extractFilename_no_newline p v hp hv
  · rw [extract_code_block_fst]
    simp [extractFilename, h]

/-- Witness for the amended C8: a newline-terminated directive with surrounding
whitespace is extracted trimmed; the same directive as the last line without a
newline is not; a marker-free text gives no filename. -/
theorem C8_amended_witness :
    (extract_code_block ("Here: \n".toList ++ fnMarker ++ " run.py ".toList ++
      '\n' :: "```python\nx = 2\n```".toList)).1 = some (pyStrip " run.py ".toList) ∧
    (extract_code_block ("Here: \n".toList ++ fnMarker ++ " run.py ".toList)).1 = none ∧
    (extract_code_block "no marker here".toList).1 = none :=
  ⟨C8_amended_filename_directive.1 "Here: \n".toList " run.py ".toList
      "```python\nx = 2\n```".toList (by decide) (by decide),
    C8_amended_filename_directive.2.1 "Here: \n".toList " run.py ".toList
      (by decide) (by decide),
    C8_amended_filename_directive.2.2 "no marker here".toList (by decide)⟩

/-! ## Claims C5 and C9: the completion client -/

theorem callAux_fail_step (transport : Nat → AttemptRes) (i f : Nat)
    (h0 : transport i = .transportFail) :
    callAux transport i (f + 1) = callAux transport (i + 1) f := by
  cases f with
  | zero => simp [callAux, h0]
  | succ f2 => simp [callAux, h0]

theorem callAux_all_fail (transport : Nat → AttemptRes) (fuel : Nat) :
    ∀ i, (∀ j, j < fuel → transport (i + j) = .transportFail) →
      callAux transport i fuel = (.ok none, i + fuel) := by
  induction fuel with
  | zero => intro i _; simp [callAux]
  | succ f ih =>
    intro i h
    rw [callAux_fail_step transport i f (by simpa using h 0 (by omega))]
    rw [ih (i + 1) (fun j hj => by
      have := h (j + 1) (by omega)
      simpa [show i + (j + 1) = i + 1 + j by omega] using this)]
    congr 1
    omega

/-- Claim C5 (confirmed): when every attempt fails at the transport level, the client
performs exactly the configured maximum number of attempts and returns the `None`
failure signal, which differs from an empty-but-successful reply. -/
theorem C5_all_attempts_fail (transport : Nat → AttemptRes) (max_retries : Nat)
    (h : ∀ j, j < max_retries → transport j = .transportFail) :
    call_ollama_api_stream transport max_retries = (.ok none, max_retries) ∧
    (call_ollama_api_stream transport max_retries).1 ≠ .ok (some []) := by
  have h1 : call_ollama_api_stream transport max_retries = (.ok none, max_retries) := by
    have h2 := callAux_all_fail transport max_retries 0 (fun j hj => by simpa using h j hj)
    simpa [call_ollama_api_stream] using h2
  refine ⟨h1, ?_⟩
  rw [h1]
  simp

/-- Witness for C5 at the default `max_retries = 3` against a transport failing every
attempt: exactly 3 attempts, then the failure signal. -/
theorem C5_witness :
    call_ollama_api_stream (fun _ => .transportFail) 3 = (.ok none, 3) ∧
    (call_ollama_api_stream (fun _ => .transportFail) 3).1 ≠ .ok (some []) :=
  C5_all_attempts_fail (fun _ => .transportFail) 3 (fun _ _ => rfl)

theorem processChunks_error_of_malformed (chunks : List Chunk)
    (h : Chunk.malformed ∈ chunks) :
    processChunks chunks = .error .jsonDecodeError := by
  induction chunks with
  | nil => cases h
  | cons c r ih =>
    cases c with
    | malformed => simp [processChunks]
    | empty =>
      have hr : Chunk.malformed ∈ r := by
        rcases List.mem_cons.mp h with h1 | h1
        · simp at h1
        · exact h1
      simp [processChunks, ih hr]
    | valid s =>
      have hr : Chunk.malformed ∈ r := by
        rcases List.mem_cons.mp h with h1 | h1
        · simp at h1
        · exact h1
      simp [processChunks, ih hr, Except.map]

/-- Claim C9 (confirmed): a malformed streamed increment is not caught locally — the
decode error escapes the call after the first attempt that hits it, with retries
remaining, instead of being skipped or converted into the retry/`None` signal. -/
theorem C9_malformed_chunk_escapes (transport : Nat → AttemptRes) (chunks : List Chunk)
    (max_retries : Nat) (h1 : 1 ≤ max_retries) (h2 : transport 0 = .stream chunks)
    (h3 : Chunk.malformed ∈ chunks) :
    call_ollama_api_stream transport max_retries = (.error .jsonDecodeError, 1) ∧
    (call_ollama_api_stream transport max_retries).1 ≠ .ok none := by
  obtain ⟨f, rfl⟩ : ∃ f, max_retries = f + 1 := ⟨max_retries - 1, by omega⟩
  have hp := processChunks_error_of_malformed chunks h3
  constructor
  · simp [call_ollama_api_stream, callAux, h2, hp]
  · simp [call_ollama_api_stream, callAux, h2, hp]

/-- Witness for C9: a stream whose sole chunk is malformed, with the default 3
attempts configured, raises after one attempt. -/
theorem C9_witness :
    call_ollama_api_stream (fun _ => .stream [Chunk.malformed]) 3 =
      (.error .jsonDecodeError, 1) ∧
    (call_ollama_api_stream (fun _ => .stream [Chunk.malformed]) 3).1 ≠ .ok none :=
  C9_malformed_chunk_escapes (fun _ => .stream [Chunk.malformed]) [Chunk.malformed] 3
    (by omega) rfl (by decide)

/-! ## Claims C1, C3, C4: the store -/

/-- An environment whose completion client always fails, whose subprocess always
exits non-zero, and whose disk injects no faults; enough for scenarios that never
reach those boundaries. -/
def idleEnv : HEnv := ⟨fun _ => none, fun _ => .failure [], honestDisk⟩

/-- A fresh session state: the system message, empty working directory, counter 1. -/
def initState : HState := ⟨[⟨.system, "s".toList⟩], [], 1, [], [], []⟩

/-- Claim C1 fails on the code (code bug): for a reply carrying the bare directive
`filename: run.py`, the save step runs `os.makedirs(os.path.dirname("run.py"),
exist_ok=True)`, i.e. `os.makedirs("", exist_ok=True)`, which raises
`FileNotFoundError`; the handler raises before writing anything, instead of
persisting the code body at `run.py` as the claim (and spec) state. -/
theorem C1_bare_filename_never_written :
    dirname "run.py".toList = [] ∧
    handle_response idleEnv initState
      "filename: run.py\n```python\nprint(1)\n```".toList [] = .error .fileNotFound := by
  exact ⟨rfl, rfl⟩

/-- Claim C4 fails on the code (code bug): every auto-generated candidate name is
bare (`generated_py_script_N.py`), so although the naming loop does pick the first
counter value unused on disk, the subsequent `os.makedirs(os.path.dirname(...))` is
`os.makedirs("")`, which raises `FileNotFoundError`: no auto-named artifact is ever
written. -/
theorem C4_autoname_never_written :
    autoLoop ([] : List Str) 1 1 = ("generated_py_script_1.py".toList, 1) ∧
    dirname "generated_py_script_1.py".toList = [] ∧
    handle_response idleEnv initState "```python\nprint(2)\n```".toList [] =
      .error .fileNotFound := by
  exact ⟨rfl, rfl, rfl⟩

/-- Claim C3 as stated is false: an I/O error during the artifact write is not
handled — with a disk whose write raises `OSError`, `handle_response` propagates the
exception (the session does not continue past it), rather than surfacing a message
and carrying on. -/
theorem C3_counterexample :
    handle_response ⟨fun _ => none, fun _ => .failure [], ⟨none, some .osError⟩⟩
      initState "filename: out/run.py\n```python\nprint(1)\n```".toList
      ["y".toList] = .error .osError := by
  exact rfl

/-- Claim C3 amended (proved): any I/O error raised while creating parent
directories or while writing the artifact propagates out of `handle_response`
uncaught, terminating the exchange — the write is not retried and the session does
not continue. -/
theorem C3_amended_io_error_propagates (env : HEnv) (st : HState) (resp : Str)
    (inputs : List Str) (f l c : Str) (e : IOErr)
    (hx : extract_code_block resp = (some f, some l, some c))
    (hf0 : f ≠ []) (hc0 : c ≠ []) (hd : dirname f ≠ []) :
    (env.disk.mkdirFail = some e → handle_response env st resp inputs = .error e) ∧
    (env.disk.mkdirFail = none → env.disk.writeFail = some e →
      handle_response env st resp inputs = .error e) := by
  constructor
  · intro hm
    simp [handle_response, saveArtifact, hx, hc0, hf0, makedirs, hd, hm]
  · intro hm hw
    simp [handle_response, saveArtifact, hx, hc0, hf0, makedirs, hd, hm, writeFile, hw]

/-- Witness for the amended C3: a directory-qualified artifact with a disk whose
write raises `OSError` makes the handler raise `OSError`. -/
theorem C3_amended_witness :
    handle_response ⟨fun _ => none, fun _ => .failure [], ⟨none, some .osError⟩⟩
      initState "filename: out/run.py\n```python\nprint(1)\n```".toList []
      = .error .osError :=
  (C3_amended_io_error_propagates
    ⟨fun _ => none, fun _ => .failure [], ⟨none, some .osError⟩⟩ initState
    "filename: out/run.py\n```python\nprint(1)\n```".toList []
    "out/run.py".toList "python".toList "print(1)".toList .osError
    rfl (by decide) (by decide) (by decide)).2 rfl rfl

/-! ## Claims C6 and C10: the confirmation gates and the debug loop -/

theorem saveArtifact_fields (env : HEnv) (st : HState) (resp : Str)
    (st1 : HState) (f l : Str)
    (h : saveArtifact env st resp = .ok (some (st1, f, l))) :
    st1.messages = st.messages ∧ st1.aiCalls = st.aiCalls ∧
      st1.execCalls = st.execCalls := by
  unfold saveArtifact at h
  repeat' split at h
  all_goals simp at h
  obtain ⟨hst, -, -⟩ := h
  rw [← hst]
  exact ⟨rfl, rfl, rfl⟩

/-- Claim C6 (confirmed): every confirmation gate is fail-closed.  (i) at the
execution gate, any non-affirmative answer ends the loop at once; (ii) hence with no
affirmative answer anywhere in the queued input, no command is ever executed;
(iii) after a failed execution, a non-affirmative debug answer ends the loop;
(iv) at the run gate, a non-affirmative answer means no completion request and no
execution happen at all. -/
theorem C6_fail_closed_gates :
    (∀ (env : HEnv) (st : HState) (cmd inp : Str) (rest : List Str), ¬ isYes inp →
      execLoop env st cmd (inp :: rest) = (st, .abortedExec)) ∧
    (∀ (env : HEnv) (st : HState) (cmd : Str) (inputs : List Str),
      (∀ i ∈ inputs, ¬ isYes i) →
      (execLoop env st cmd inputs).1.execCalls = st.execCalls) ∧
    (∀ (env : HEnv) (st : HState) (cmd inp dinp : Str) (rest : List Str) (e : Str),
      isYes inp → env.exec st.execCalls.length = .failure e → ¬ isYes dinp →
      execLoop env st cmd (inp :: dinp :: rest) =
        ({ st with execCalls := st.execCalls ++ [cmd] }, .abortedDebug)) ∧
    (∀ (env : HEnv) (st : HState) (resp rinp : Str) (rest : List Str)
        (st' : HState) (s : Status), ¬ isYes rinp →
      handle_response env st resp (rinp :: rest) = .ok (st', s) →
      st'.execCalls = st.execCalls ∧ st'.aiCalls = st.aiCalls ∧
        st'.messages = st.messages) := by
  have part1 : ∀ (env : HEnv) (st : HState) (cmd inp : Str) (rest : List Str),
      ¬ isYes inp → execLoop env st cmd (inp :: rest) = (st, .abortedExec) := by
    intro env st cmd inp rest h
    simp [execLoop, h]
  refine ⟨part1, ?_, ?_, ?_⟩
  · intro env st cmd inputs h
    cases inputs with
    | nil => simp [execLoop]
    | cons inp rest => rw [part1 env st cmd inp rest (h inp (by simp))]
  · intro env st cmd inp dinp rest e h1 h2 h3
    simp [execLoop, h1, callExec, h2, h3]
  · intro env st resp rinp rest st' s h hok
    unfold handle_response at hok
    cases hsa : saveArtifact env st resp with
    | error e => rw [hsa] at hok; exact absurd hok (by simp)
    | ok o =>
      rw [hsa] at hok
      cases o with
      | none =>
        simp only [Except.ok.injEq, Prod.mk.injEq] at hok
        rw [← hok.1]
        exact ⟨rfl, rfl, rfl⟩
      | some trip =>
        obtain ⟨st1, f, l⟩ := trip
        have hf := saveArtifact_fields env st resp st1 f l hsa
        simp only [h, Bool.false_eq_true, if_false, Except.ok.injEq,
          Prod.mk.injEq] at hok
        rw [← hok.1]
        exact ⟨hf.2.2, hf.2.1, hf.1⟩

/-- Witness for C6 at concrete inputs: answering `"n"`, `""` and `" no "` at the
gates never executes and aborts each sub-flow. -/
theorem C6_witness :
    execLoop idleEnv initState "rm -rf /".toList ["n".toList] =
      (initState, .abortedExec) ∧
    (execLoop idleEnv initState "rm -rf /".toList
      ["n".toList, "".toList, " no ".toList]).1.execCalls = initState.execCalls ∧
    execLoop idleEnv initState "cmd".toList ["y".toList, "n".toList] =
      ({ initState with execCalls := initState.execCalls ++ ["cmd".toList] },
        .abortedDebug) :=
  ⟨C6_fail_closed_gates.1 idleEnv initState "rm -rf /".toList "n".toList []
      (by decide),
    C6_fail_closed_gates.2.1 idleEnv initState "rm -rf /".toList
      ["n".toList, "".toList, " no ".toList] (by decide),
    C6_fail_closed_gates.2.2.1 idleEnv initState "cmd".toList "y".toList "n".toList
      [] [] (by decide) rfl (by decide)⟩

/-- Claim C10 (confirmed): after a failed execution, an accepted debug round whose
corrective completion call returns the failure signal does not abort the flow — the
loop comes straight back to the execution-confirmation gate with the previous run
command unchanged, the main conversation unchanged, the failed round leaving behind
only the recorded execution and the recorded (unanswered) correction request. -/
theorem C10_failed_debug_round_continues (env : HEnv) (st : HState)
    (cmd inp dinp : Str) (rest : List Str) (e : Str)
    (h1 : isYes inp) (h2 : env.exec st.execCalls.length = .failure e)
    (h3 : isYes dinp) (h4 : env.ai st.aiCalls.length = none) :
    execLoop env st cmd (inp :: dinp :: rest) =
      execLoop env
        { st with execCalls := st.execCalls ++ [cmd],
                  aiCalls := st.aiCalls ++ [st.messages ++ [correctionMsg e]] }
        cmd rest ∧
    ({ st with execCalls := st.execCalls ++ [cmd],
               aiCalls := st.aiCalls ++ [st.messages ++ [correctionMsg e]] } :
        HState).messages = st.messages := by
  constructor
  · simp [execLoop, h1, callExec, h2, h3, callAI, h4]
  · rfl

/-- Witness for C10: one failed execution, debug accepted, completion client down —
the loop returns to the confirmation gate with the same command; declining then
aborts. -/
theorem C10_witness :
    execLoop idleEnv initState "python3 x.py".toList
        ["y".toList, "y".toList, "n".toList] =
      execLoop idleEnv
        { initState with
          execCalls := initState.execCalls ++ ["python3 x.py".toList],
          aiCalls := initState.aiCalls ++
            [initState.messages ++ [correctionMsg []]] }
        "python3 x.py".toList ["n".toList] ∧
    ({ initState with
       execCalls := initState.execCalls ++ ["python3 x.py".toList],
       aiCalls := initState.aiCalls ++
         [initState.messages ++ [correctionMsg []]] } : HState).messages =
      initState.messages :=
  C10_failed_debug_round_continues idleEnv initState "python3 x.py".toList
    "y".toList "y".toList ["n".toList] [] (by decide) rfl (by decide) rfl

/-! ## Claim C2: what reaches the main conversation -/

theorem callExec_state (env : HEnv) (st : HState) (cmd : Str) (res : ExecRes)
    (st' : HState) (h : callExec env st cmd = (res, st')) :
    st'.messages = st.messages ∧ st'.aiCalls = st.aiCalls := by
  have h2 : st' = { st with execCalls := st.execCalls ++ [cmd] } :=
    (congrArg Prod.snd h).symm
  rw [h2]
  exact ⟨rfl, rfl⟩

theorem callAI_state (env : HEnv) (st : HState) (req : List Msg) (r : Option Str)
    (st' : HState) (h : callAI env st req = (r, st')) :
    st' = { st with aiCalls := st.aiCalls ++ [req] } :=
  (congrArg Prod.snd h).symm

theorem execLoop_conversation (env : HEnv) (st : HState) (cmd : Str) (inputs : List Str) :
    ∃ tail added,
      (execLoop env st cmd inputs).1.messages = st.messages ++ tail ∧
      (∀ m ∈ tail, m.role = .assistant) ∧
      (execLoop env st cmd inputs).1.aiCalls = st.aiCalls ++ added ∧
      (∀ req ∈ added, ∃ ms e2, req = ms ++ [correctionMsg e2]) := by
  induction st, cmd, inputs using execLoop.induct env with
  | case1 st x =>
    exact ⟨[], [], by simp [execLoop], by simp, by simp [execLoop], by simp⟩
  | case2 st cmd inp rest hyes out st1 hcall =>
    have hred : execLoop env st cmd (inp :: rest) = (st1, .execSuccess out) := by
      simp only [execLoop, hyes, hcall]
      simp
    obtain ⟨hm, ha⟩ := callExec_state env st cmd _ st1 hcall
    exact ⟨[], [], by simp [hred, hm], by simp, by simp [hred, ha], by simp⟩
  | case3 st cmd inp hyes stderr st1 hcall =>
    have hred : execLoop env st cmd [inp] = (st1, .abortedDebug) := by
      simp only [execLoop, hyes, hcall]
      simp
    obtain ⟨hm, ha⟩ := callExec_state env st cmd _ st1 hcall
    exact ⟨[], [], by simp [hred, hm], by simp, by simp [hred, ha], by simp⟩
  | case4 st cmd inp hyes stderr st1 hcall dinp rest2 hdy st2 hAI ih =>
    have hred : execLoop env st cmd (inp :: dinp :: rest2) = execLoop env st2 cmd rest2 := by
      simp only [execLoop, hyes, hcall, hdy, hAI]
      simp
    obtain ⟨hm1, ha1⟩ := callExec_state env st cmd _ st1 hcall
    have h2 := callAI_state env st1 _ _ st2 hAI
    obtain ⟨tail, added, g1, g2, g3, g4⟩ := ih
    refine ⟨tail, (st1.messages ++ [correctionMsg stderr]) :: added, ?_, g2, ?_, ?_⟩
    · rw [hred, g1, h2]
      simp [hm1]
    · rw [hred, g3, h2]
      simp [ha1]
    · intro req hreq
      rcases List.mem_cons.mp hreq with h | h
      · exact ⟨st1.messages, stderr, h⟩
      · exact g4 req h
  | case5 st cmd inp hyes stderr st1 hcall dinp rest2 hdy st2 hAI ih =>
    have hred : execLoop env st cmd (inp :: dinp :: rest2) = execLoop env st2 cmd rest2 := by
      simp only [execLoop, hyes, hcall, hdy, hAI]
      simp
    obtain ⟨hm1, ha1⟩ := callExec_state env st cmd _ st1 hcall
    have h2 := callAI_state env st1 _ _ st2 hAI
    obtain ⟨tail, added, g1, g2, g3, g4⟩ := ih
    refine ⟨tail, (st1.messages ++ [correctionMsg stderr]) :: added, ?_, g2, ?_, ?_⟩
    · rw [hred, g1, h2]
      simp [hm1]
    · rw [hred, g3, h2]
      simp [ha1]
    · intro req hreq
      rcases List.mem_cons.mp hreq with h | h
      · exact ⟨st1.messages, stderr, h⟩
      · exact g4 req h
  | case6 st cmd inp hyes stderr st1 hcall dinp rest2 hdy resp st2 hAI hne hex =>
    have hred : execLoop env st cmd (inp :: dinp :: rest2) =
        ({ st2 with messages := st2.messages ++ [⟨.assistant, resp⟩] }, .noFix) := by
      simp only [execLoop, hyes, hcall, hdy, hAI, hex, hne]
      simp [hne]
    obtain ⟨hm1, ha1⟩ := callExec_state env st cmd _ st1 hcall
    have h2 := callAI_state env st1 _ _ st2 hAI
    refine ⟨[⟨.assistant, resp⟩], [st1.messages ++ [correctionMsg stderr]],
      ?_, by simp, ?_, ?_⟩
    · rw [hred]
      simp only [h2]
      simp [hm1]
    · rw [hred]
      simp only [h2]
      simp [ha1]
    · intro req hreq
      rcases List.mem_cons.mp hreq with h | h
      · exact ⟨st1.messages, stderr, h⟩
      · simp at h
  | case7 st cmd inp hyes stderr st1 hcall dinp rest2 hdy resp st2 hAI hne hex =>
    have hred : execLoop env st cmd (inp :: dinp :: rest2) =
        ({ st2 with messages := st2.messages ++ [⟨.assistant, resp⟩] }, .noFix) := by
      simp only [execLoop, hyes, hcall, hdy, hAI, hex, hne]
      simp [hne]
    obtain ⟨hm1, ha1⟩ := callExec_state env st cmd _ st1 hcall
    have h2 := callAI_state env st1 _ _ st2 hAI
    refine ⟨[⟨.assistant, resp⟩], [st1.messages ++ [correctionMsg stderr]],
      ?_, by simp, ?_, ?_⟩
    · rw [hred]
      simp only [h2]
      simp [hm1]
    · rw [hred]
      simp only [h2]
      simp [ha1]
    · intro req hreq
      rcases List.mem_cons.mp hreq with h | h
      · exact ⟨st1.messages, stderr, h⟩
      · simp at h
  | case8 st cmd inp hyes stderr st1 hcall dinp rest2 hdy resp st2 hAI hne st3 newCmd hex hne2 ih =>
    have hst3 : st3 = { st2 with messages := st2.messages ++ [⟨.assistant, resp⟩] } := rfl
    have hred : execLoop env st cmd (inp :: dinp :: rest2) =
        execLoop env { st2 with messages := st2.messages ++ [⟨.assistant, resp⟩] }
          newCmd rest2 := by
      simp only [execLoop, hyes, hcall, hdy, hAI, hex, hne, hne2]
      simp [hne, hne2]
    obtain ⟨hm1, ha1⟩ := callExec_state env st cmd _ st1 hcall
    have h2 := callAI_state env st1 _ _ st2 hAI
    obtain ⟨tail, added, g1, g2, g3, g4⟩ := ih
    rw [hst3] at g1 g3
    refine ⟨⟨.assistant, resp⟩ :: tail,
      (st1.messages ++ [correctionMsg stderr]) :: added, ?_, ?_, ?_, ?_⟩
    · rw [hred, g1]
      simp only [h2]
      simp [hm1]
    · intro m hm
      rcases List.mem_cons.mp hm with h | h
      · rw [h]
      · exact g2 m h
    · rw [hred, g3]
      simp only [h2]
      simp [ha1]
    · intro req hreq
      rcases List.mem_cons.mp hreq with h | h
      · exact ⟨st1.messages, stderr, h⟩
      · exact g4 req h
  | case9 st cmd inp hyes stderr st1 hcall dinp rest2 hdn =>
    have hred : execLoop env st cmd (inp :: dinp :: rest2) = (st1, .abortedDebug) := by
      simp only [execLoop, hyes, hcall, hdn]
      simp [hdn]
    obtain ⟨hm, ha⟩ := callExec_state env st cmd _ st1 hcall
    exact ⟨[], [], by simp [hred, hm], by simp, by simp [hred, ha], by simp⟩
  | case10 st cmd inp rest hn =>
    have hred : execLoop env st cmd (inp :: rest) = (st, .abortedExec) := by
      simp [execLoop, hn]
    exact ⟨[], [], by simp [hred], by simp, by simp [hred], by simp⟩

/-- The completion oracle of the C2 scenario: first call returns a run command,
second call (the accepted debug round) returns a corrective command. -/
def dbgEnv : HEnv :=
  ⟨fun n => if n = 0 then some "```bash\npython3 out/run.py\n```".toList
            else if n = 1 then some "```bash\npython3 out/fixed.py\n```".toList
            else none,
   fun n => if n = 0 then .failure "boom".toList else .success "ok".toList,
   honestDisk⟩

/-- Claim C2 as stated is false: in a run where the first execution fails and the
user accepts the debug offer (the completion request for it is issued — two
completion calls in total), the main conversation afterwards holds only the original
system message and the assistant's corrective reply; the synthetic correction
request (built with `messages + [...]`, which does not mutate `messages`) is never
appended to the main conversation. -/
theorem C2_counterexample :
    (handle_response dbgEnv initState
        "filename: out/run.py\n```python\nprint(1)\n```".toList
        ["y".toList, "y".toList, "y".toList, "y".toList]).map
      (fun r => r.1.messages) =
      .ok [⟨.system, "s".toList⟩,
        ⟨.assistant, "```bash\npython3 out/fixed.py\n```".toList⟩] ∧
    (handle_response dbgEnv initState
        "filename: out/run.py\n```python\nprint(1)\n```".toList
        ["y".toList, "y".toList, "y".toList, "y".toList]).map
      (fun r => decide (correctionMsg "boom".toList ∈ r.1.messages)) = .ok false ∧
    (handle_response dbgEnv initState
        "filename: out/run.py\n```python\nprint(1)\n```".toList
        ["y".toList, "y".toList, "y".toList, "y".toList]).map
      (fun r => r.1.aiCalls.length) = .ok 2 := by
  exact ⟨rfl, rfl, rfl⟩

/-- Claim C2 amended (proved): during the run/debug flow the main conversation only
ever grows by assistant replies from accepted debug rounds — the narrow run-command
exchange is never appended to it, and an accepted debug round sends the synthetic
correction request (current conversation plus a user message carrying the stderr) to
the model as the request payload while appending only the assistant's corrective
reply to the main conversation.  Formally: every completion request issued by
`handle_response` is either the fresh two-message run-command conversation or a
conversation ending in a synthetic correction message, and the main conversation
after the flow is the original one extended by assistant messages only. -/
theorem C2_amended_conversation (env : HEnv) (st : HState) (resp : Str)
    (inputs : List Str) (st' : HState) (s : Status)
    (h : handle_response env st resp inputs = .ok (st', s)) :
    ∃ tail added,
      st'.messages = st.messages ++ tail ∧
      (∀ m ∈ tail, m.role = .assistant) ∧
      st'.aiCalls = st.aiCalls ++ added ∧
      (∀ req ∈ added, (∃ f2 l2, req = runCommandMsgs f2 l2) ∨
        (∃ ms e2, req = ms ++ [correctionMsg e2])) := by
  unfold handle_response at h
  cases hsa : saveArtifact env st resp with
  | error e => rw [hsa] at h; exact absurd h (by simp)
  | ok o =>
    rw [hsa] at h
    cases o with
    | none =>
      simp only [Except.ok.injEq, Prod.mk.injEq] at h
      exact ⟨[], [], by rw [← h.1]; simp, by simp, by rw [← h.1]; simp, by simp⟩
    | some trip =>
      obtain ⟨st1, f2, l2⟩ := trip
      obtain ⟨hm, ha, _⟩ := saveArtifact_fields env st resp st1 f2 l2 hsa
      cases inputs with
      | nil =>
        simp only [Except.ok.injEq, Prod.mk.injEq] at h
        exact ⟨[], [], by rw [← h.1]; simp [hm], by simp,
          by rw [← h.1]; simp [ha], by simp⟩
      | cons rinp rest =>
        have hfin : { st1 with aiCalls := st1.aiCalls ++ [runCommandMsgs f2 l2] } = st' →
            ∃ tail added,
              st'.messages = st.messages ++ tail ∧
              (∀ m ∈ tail, m.role = .assistant) ∧
              st'.aiCalls = st.aiCalls ++ added ∧
              (∀ req ∈ added, (∃ f3 l3, req = runCommandMsgs f3 l3) ∨
                (∃ ms e2, req = ms ++ [correctionMsg e2])) := by
          intro he
          refine ⟨[], [runCommandMsgs f2 l2], ?_, by simp, ?_, ?_⟩
          · rw [← he]; simp [hm]
          · rw [← he]; simp [ha]
          · intro req hreq
            rcases List.mem_cons.mp hreq with h2 | h2
            · exact Or.inl ⟨f2, l2, h2⟩
            · simp at h2
        by_cases hy : isYes rinp
        · simp only [hy, if_true, callAI] at h
          cases hai : env.ai st1.aiCalls.length with
          | none =>
            rw [hai] at h
            simp only [Except.ok.injEq, Prod.mk.injEq] at h
            exact hfin h.1
          | some rc =>
            rw [hai] at h
            by_cases hrc : rc = []
            · rw [hrc] at h
              simp only [if_pos, Except.ok.injEq, Prod.mk.injEq] at h
              exact hfin h.1
            · simp only [hrc, if_false] at h
              cases hex : (extract_code_block rc).2.2 with
              | none =>
                rw [hex] at h
                simp only [Except.ok.injEq, Prod.mk.injEq] at h
                exact hfin h.1
              | some cmd =>
                rw [hex] at h
                by_cases hcm : cmd = []
                · rw [hcm] at h
                  simp only [if_pos, Except.ok.injEq, Prod.mk.injEq] at h
                  exact hfin h.1
                · simp only [hcm, if_false, Except.ok.injEq] at h
                  obtain ⟨tail, added, g1, g2, g3, g4⟩ :=
                    execLoop_conversation env
                      { st1 with aiCalls := st1.aiCalls ++ [runCommandMsgs f2 l2] }
                      cmd rest
                  rw [h] at g1 g3
                  refine ⟨tail, runCommandMsgs f2 l2 :: added, ?_, g2, ?_, ?_⟩
                  · rw [g1]; simp [hm]
                  · rw [g3]; simp [ha]
                  · intro req hreq
                    rcases List.mem_cons.mp hreq with h2 | h2
                    · exact Or.inl ⟨f2, l2, h2⟩
                    · rcases g4 req h2 with ⟨ms, e2, h3⟩
                      exact Or.inr ⟨ms, e2, h3⟩
        · simp only [hy, Bool.false_eq_true, if_false, Except.ok.injEq,
            Prod.mk.injEq] at h
          exact ⟨[], [], by rw [← h.1]; simp [hm], by simp,
            by rw [← h.1]; simp [ha], by simp⟩

/-- Witness for the amended C2 on a reply with no code block: the conversation and
call log are unchanged. -/
theorem C2_amended_witness :
    ∃ tail added,
      initState.messages = initState.messages ++ tail ∧
      (∀ m ∈ tail, m.role = .assistant) ∧
      initState.aiCalls = initState.aiCalls ++ added ∧
      (∀ req ∈ added, (∃ f2 l2, req = runCommandMsgs f2 l2) ∨
        (∃ ms e2, req = ms ++ [correctionMsg e2])) :=
  C2_amended_conversation idleEnv initState "hi there".toList [] initState .noCode rfl

end PyCLI
